import Mathlib

/-!
# filesync: relay server and watching client

A shallow embedding of `server/server.go` and `client/client.go`.

* Go maps (`map[string]time.Time`, `map[string]bool`, `map[*websocket.Conn]bool`,
  `map[string]interface{}`) are association lists read through `mapGet`.
* Everything outside the process (the file system, the wall clock, the
  websocket connections) is an explicit `World` value threaded through the
  handlers; every `WriteJSON` call is recorded in `World.wire`.
* A Go runtime panic is the `Run.panicked` outcome.
-/

namespace Filesync

/-! ## Go values -/

/-- A finite Go `float64`, the number `mant * 2 ^ exp`. Every finite float64
has this form with `|mant| < 2 ^ 53` and `-1074 ≤ exp ≤ 971` (see
`isFloat64`); a JSON number never decodes to NaN or an infinity. -/
structure Float64 where
  mant : Int
  exp : Int

/-- The pairs that are finite float64 values. -/
def isFloat64 (f : Float64) : Prop :=
  -(2 ^ 53) < f.mant ∧ f.mant < 2 ^ 53 ∧ -1074 ≤ f.exp ∧ f.exp ≤ 971

/-- The value of a float64 with its fractional part dropped (rounded toward
zero). -/
def Float64.trunc (f : Float64) : Int :=
  if 0 ≤ f.exp then f.mant * 2 ^ f.exp.toNat
  else Int.tdiv f.mant (2 ^ (-f.exp).toNat)

/-- Go conversion `int64(f)` of a float64: the value truncated toward zero.
When that is outside the int64 range the language leaves the result to the
implementation; the result of the amd64 compiler, the least int64, is taken. -/
def float64_toInt64 (f : Float64) : Int :=
  if -(2 ^ 63) ≤ f.trunc ∧ f.trunc < 2 ^ 63 then f.trunc else -(2 ^ 63)

/-- The comparison `T_local < T_remote` of an instant in nanoseconds with a
float64 timestamp, taken exactly on the value `mant * 2 ^ exp`. -/
def earlierThan (Tl : Int) (f : Float64) : Prop :=
  if 0 ≤ f.exp then Tl < f.mant * 2 ^ f.exp.toNat
  else Tl * 2 ^ (-f.exp).toNat < f.mant

/-- A value held in a decoded `map[string]interface{}`: `nil`, `bool`,
`float64`, `string`, `[]interface{}` or a nested `map[string]interface{}`. -/
inductive JVal where
  | null : JVal
  | bool (b : Bool) : JVal
  | num (f : Float64) : JVal
  | str (s : String) : JVal
  | arr (items : List JVal) : JVal
  | obj (fields : List (String × JVal)) : JVal

/-- A JSON message: `map[string]interface{}`. -/
abbrev Msg := List (String × JVal)

/-- A websocket connection (`*websocket.Conn`), identified by a number. -/
abbrev ConnId := Nat

/-- Go `m[k]` with the comma-ok result: `none` when the key is absent. -/
def mapGet {K V : Type} [DecidableEq K] : List (K × V) → K → Option V
  | [], _ => none
  | (k', v) :: rest, k => if k' = k then some v else mapGet rest k

/-- Go `delete(m, k)`. -/
def mapDelete {K V : Type} [DecidableEq K] (m : List (K × V)) (k : K) : List (K × V) :=
  m.filter (fun e => decide (e.1 ≠ k))

/-- Go `m[k] = v`. -/
def mapSet {K V : Type} [DecidableEq K] (m : List (K × V)) (k : K) (v : V) : List (K × V) :=
  (k, v) :: mapDelete m k

/-- The keys a `range` over the map visits, each once. -/
def mapKeys {K V : Type} (m : List (K × V)) : List K :=
  m.map Prod.fst

/-- Outcome of running a handler: it returns, or the goroutine panics. -/
inductive Run (α : Type) where
  | returned (a : α) : Run α
  | panicked (why : String) : Run α

/-! ## The world outside the process -/

/-- A regular file: its bytes (as text) and its modification time in
nanoseconds since the Unix epoch. -/
structure FileInfo where
  body : String
  modTime : Int

/-- One `WriteJSON` call: the connection, the message, and whether the write
succeeded. -/
structure WriteEvent where
  conn : ConnId
  message : Msg
  ok : Bool

/-- The environment of one process. -/
structure World where
  /-- Regular files by path. -/
  files : List (String × FileInfo)
  /-- Paths on which every file operation reports an error. -/
  denied : List String
  /-- The instant `time.Now()` returns, nanoseconds since the epoch. -/
  now : Int
  /-- Connections on which `WriteJSON` reports an error. -/
  dead : List ConnId
  /-- Every `WriteJSON` call made so far, oldest first. -/
  wire : List WriteEvent

/-- Go `os.ReadFile`: `none` is an error. -/
def os_ReadFile (w : World) (path : String) : Option String :=
  if path ∈ w.denied then none
  else (mapGet w.files path).map FileInfo.body

/-- Go `os.WriteFile`: `none` is an error (the world is then left as it was). -/
def os_WriteFile (w : World) (path : String) (data : String) : Option World :=
  if path ∈ w.denied then none
  else some { w with files := mapSet w.files path ⟨data, w.now⟩ }

/-- Go `os.Remove`: `none` is an error, in particular when the file is absent. -/
def os_Remove (w : World) (path : String) : Option World :=
  if path ∈ w.denied then none
  else match mapGet w.files path with
    | none => none
    | some _ => some { w with files := mapDelete w.files path }

/-- Go `os.Stat` followed by `ModTime()`: `none` is an error. -/
def os_Stat (w : World) (path : String) : Option Int :=
  if path ∈ w.denied then none
  else (mapGet w.files path).map FileInfo.modTime

/-- The name a path contributes to the listing of `dir`: the first path
element below `dir`. -/
def entryName (dir : String) (path : String) : Option String :=
  let pre := (dir ++ "/").data
  if pre.isPrefixOf path.data then
    let first := (path.data.drop pre.length).takeWhile (fun ch => ch != '/')
    if first = [] then none else some (String.mk first)
  else none

/-- Byte-wise lexicographic order on names. -/
def nameLE : List Char → List Char → Bool
  | [], _ => true
  | _ :: _, [] => false
  | a :: as, b :: bs =>
    if a.toNat < b.toNat then true
    else if b.toNat < a.toNat then false
    else nameLE as bs

/-- Insert a name into a sorted listing that holds each name once. -/
def insertName (n : String) : List String → List String
  | [] => [n]
  | m :: rest =>
    if n = m then m :: rest
    else if nameLE n.data m.data then n :: m :: rest
    else m :: insertName n rest

/-- Go `os.ReadDir`: the entry names of a directory, sorted by name; `none`
is an error. -/
def os_ReadDir (w : World) (dir : String) : Option (List String) :=
  if dir ∈ w.denied then none
  else some ((w.files.filterMap (fun e => entryName dir e.1)).foldr insertName [])

/-- Go `conn.WriteJSON(message)`: the call is recorded; the result is `true`
when the write succeeded. -/
def WriteJSON (w : World) (conn : ConnId) (message : Msg) : Bool × World :=
  let ok := decide (conn ∉ w.dead)
  (ok, { w with wire := w.wire ++ [⟨conn, message, ok⟩] })

/-- Go `filepath.Base` (Unix): the last element of the path. -/
def filepath_Base (path : String) : String :=
  if path = "" then "."
  else
    let stripped := path.data.reverse.dropWhile (fun ch => ch == '/')
    let last := stripped.takeWhile (fun ch => ch != '/')
    if last = [] then "/" else String.mk last.reverse

/-- Go comma-ok type assertion `v.(string)` on the result of a map lookup: a
missing key yields the nil interface, on which the assertion fails. -/
def asString : Option JVal → Option String
  | some (JVal.str s) => some s
  | _ => none

/-- Go type assertion `v.(float64)` on the result of a map lookup: `none`
when the value is not a float64. -/
def asFloat64 : Option JVal → Option Float64
  | some (JVal.num f) => some f
  | _ => none

/-! ## server/server.go -/

/-- The `Server` struct (the mutexes carry no data). -/
structure Server where
  clients : List (ConnId × Bool)
  fileState : List (String × Int)

/-- Go `NewServer`. -/
def NewServer : Server :=
  { clients := [], fileState := [] }

/-- The `for _, f := range files` loop of `SendInitialFiles`. -/
def SendInitialFiles_loop (ws : ConnId) : List String → World → World
  | [], w => w
  | f :: rest, w =>
    match os_ReadFile w ("server_storage/" ++ f) with
    | none => SendInitialFiles_loop ws rest w
    | some content =>
      let r := WriteJSON w ws [("filename", JVal.str f), ("content", JVal.str content)]
      if r.1 then SendInitialFiles_loop ws rest r.2 else r.2

/-- Go `Server.SendInitialFiles`. -/
def SendInitialFiles (w : World) (ws : ConnId) : World :=
  match os_ReadDir w "server_storage" with
  | none => w
  | some files => SendInitialFiles_loop ws files w

/-- The `for client := range s.clients` loop of `Broadcast`, over the keys the
range visits. -/
def Broadcast_loop (message : Msg) : List ConnId → Server → World → Server × World
  | [], s, w => (s, w)
  | client :: rest, s, w =>
    let r := WriteJSON w client message
    if r.1 then Broadcast_loop message rest s r.2
    else Broadcast_loop message rest { s with clients := mapDelete s.clients client } r.2

/-- Go `Server.Broadcast`. -/
def Broadcast (s : Server) (w : World) (message : Msg) : Server × World :=
  Broadcast_loop message (mapKeys s.clients) s w

/-- The write events one fan-out of `message` over the connections `ks` adds. -/
def fanOut (w : World) (message : Msg) (ks : List ConnId) : List WriteEvent :=
  ks.map (fun c => ⟨c, message, decide (c ∉ w.dead)⟩)

/-- Go `Server.HandleMessage`. -/
def HandleMessage (s : Server) (w : World) (msg : Msg) : Server × World :=
  match asString (mapGet msg "filename") with
  | none => (s, w)
  | some filename =>
    if filename = "" then (s, w)
    else
      match asString (mapGet msg "operation") with
      | none => (s, w)
      | some operation =>
        if operation = "" then (s, w)
        else if operation = "upload" then
          match asString (mapGet msg "content") with
          | none => (s, w)
          | some contentStr =>
            match os_WriteFile w ("server_storage/" ++ filename) contentStr with
            | none => (s, w)
            | some w1 => ({ s with fileState := mapSet s.fileState filename w1.now }, w1)
        else if operation = "delete" then
          match os_Remove w ("server_storage/" ++ filename) with
          | none => (s, w)
          | some w1 => ({ s with fileState := mapDelete s.fileState filename }, w1)
        else if operation = "request" then
          match os_ReadFile w ("server_storage/" ++ filename) with
          | none => (s, w)
          | some content =>
            Broadcast s w [("operation", JVal.str "content"), ("filename", JVal.str filename),
              ("content", JVal.str content)]
        else (s, w)

/-! ## client/client.go -/

/-- The constant `syncDir`. -/
def syncDir : String := "local_storage"

/-- The `Client` struct (the watcher and the mutex carry no data). -/
structure Client where
  Conn : ConnId
  IgnoreFiles : List (String × Bool)

/-- Go `Client.HandleLocalChange`. -/
def HandleLocalChange (c : Client) (w : World) (path : String) : Client × World :=
  let filename := filepath_Base path
  if (mapGet c.IgnoreFiles filename).getD false then
    ({ c with IgnoreFiles := mapDelete c.IgnoreFiles filename }, w)
  else
    match os_ReadFile w path with
    | none => (c, w)
    | some content =>
      (c, (WriteJSON w c.Conn [("operation", JVal.str "upload"), ("filename", JVal.str filename),
        ("content", JVal.str content)]).2)

/-- Go `Client.HandleLocalDelete`. -/
def HandleLocalDelete (c : Client) (w : World) (filename : String) : Client × World :=
  (c, (WriteJSON w c.Conn [("operation", JVal.str "delete"), ("filename", JVal.str filename)]).2)

/-- Go `Client.HandleServerMessage`. The timestamp assertion
`msg["timestamp"].(float64)` has no comma-ok form: it panics when it fails.
Its result is converted by `int64(...)`; `time.Unix(0, n)` is the instant `n`
nanoseconds after the epoch and `Before` is `<` on instants. -/
def HandleServerMessage (c : Client) (w : World) (msg : Msg) : Run (Client × World) :=
  match asString (mapGet msg "filename") with
  | none => Run.returned (c, w)
  | some filename =>
    match asString (mapGet msg "operation") with
    | none => Run.returned (c, w)
    | some operation =>
      if operation = "update" then
        match asFloat64 (mapGet msg "timestamp") with
        | none => Run.panicked "interface conversion: not float64"
        | some timestamp =>
          let remoteTime := float64_toInt64 timestamp
          let request : Msg := [("operation", JVal.str "request"), ("filename", JVal.str filename)]
          match os_Stat w (syncDir ++ "/" ++ filename) with
          | none => Run.returned (c, (WriteJSON w c.Conn request).2)
          | some localTime =>
            if localTime < remoteTime then Run.returned (c, (WriteJSON w c.Conn request).2)
            else Run.returned (c, w)
      else if operation = "content" then
        match asString (mapGet msg "content") with
        | none => Run.returned (c, w)
        | some content =>
          let c1 : Client := { c with IgnoreFiles := mapSet c.IgnoreFiles filename true }
          match os_WriteFile w (syncDir ++ "/" ++ filename) content with
          | none => Run.returned (c1, w)
          | some w1 => Run.returned (c1, w1)
      else Run.returned (c, w)

/-! ## Go maps -/

theorem mapDelete_cons {K V : Type} [DecidableEq K] (a : K) (b : V) (rest : List (K × V))
    (k : K) : mapDelete ((a, b) :: rest) k
      = if a = k then mapDelete rest k else (a, b) :: mapDelete rest k := by
  by_cases h : a = k <;> simp [mapDelete, h]

theorem mapGet_mapDelete_self {K V : Type} [DecidableEq K] (m : List (K × V)) (k : K) :
    mapGet (mapDelete m k) k = none := by
  induction m with
  | nil => rfl
  | cons e rest ih =>
    obtain ⟨a, b⟩ := e
    rw [mapDelete_cons]
    by_cases h : a = k
    · simpa [h] using ih
    · simpa [h, mapGet] using ih

theorem mapGet_cons {K V : Type} [DecidableEq K] (a : K) (b : V) (rest : List (K × V))
    (k : K) : mapGet ((a, b) :: rest) k = if a = k then some b else mapGet rest k := rfl

theorem mapGet_mapDelete_of_ne {K V : Type} [DecidableEq K] (m : List (K × V)) (k k' : K)
    (h : k' ≠ k) : mapGet (mapDelete m k) k' = mapGet m k' := by
  induction m with
  | nil => rfl
  | cons e rest ih =>
    obtain ⟨a, b⟩ := e
    rw [mapDelete_cons]
    by_cases h1 : a = k
    · have h2 : a ≠ k' := fun h3 => h (h3.symm.trans h1)
      rw [if_pos h1, mapGet_cons, if_neg h2, ih]
    · rw [if_neg h1, mapGet_cons, mapGet_cons, ih]

theorem mapGet_mapSet_self {K V : Type} [DecidableEq K] (m : List (K × V)) (k : K) (v : V) :
    mapGet (mapSet m k v) k = some v := by
  simp [mapSet, mapGet]

theorem mapGet_mapSet_of_ne {K V : Type} [DecidableEq K] (m : List (K × V)) (k k' : K) (v : V)
    (h : k' ≠ k) : mapGet (mapSet m k v) k' = mapGet m k' := by
  have h1 : k ≠ k' := fun h2 => h h2.symm
  simp [mapSet, mapGet, h1, mapGet_mapDelete_of_ne m k k' h]

theorem mapGet_eq_some_iff_mem {K V : Type} [DecidableEq K] (m : List (K × V))
    (h : (mapKeys m).Nodup) (k : K) (v : V) : mapGet m k = some v ↔ (k, v) ∈ m := by
  induction m with
  | nil => simp [mapGet]
  | cons e rest ih =>
    obtain ⟨a, b⟩ := e
    have hn : a ∉ mapKeys rest ∧ (mapKeys rest).Nodup := by
      simpa [mapKeys] using h
    rw [mapGet_cons]
    by_cases hak : a = k
    · subst hak
      have hnot : ∀ v', (a, v') ∉ rest := fun v' hm =>
        hn.1 (List.mem_map.2 ⟨(a, v'), hm, rfl⟩)
      simp [hnot, eq_comm]
    · have hne : ¬ (k = a) := fun h' => hak h'.symm
      simp [hak, hne, ih hn.2]

theorem mapGet_perm {K V : Type} [DecidableEq K] (m m' : List (K × V))
    (h : (mapKeys m).Nodup) (hp : m'.Perm m) (k : K) : mapGet m' k = mapGet m k := by
  have h' : (mapKeys m').Nodup := (List.Perm.nodup_iff (List.Perm.map Prod.fst hp)).2 h
  apply Option.ext
  intro v
  rw [Option.mem_def, Option.mem_def, mapGet_eq_some_iff_mem m' h', mapGet_eq_some_iff_mem m h]
  exact hp.mem_iff

/-! ## Type assertions -/

theorem asString_eq_some (x : Option JVal) (f : String) :
    asString x = some f ↔ x = some (JVal.str f) := by
  cases x with
  | none => simp [asString]
  | some v => cases v <;> simp [asString]

theorem asString_str (x : Option JVal) (f : String) (h : x = some (JVal.str f)) :
    asString x = some f :=
  (asString_eq_some x f).2 h

/-! ## Server: malformed messages -/

/-- C3: a message whose `filename` is missing, not a string or empty, or whose
`operation` is missing, not a string, empty or none of upload/delete/request,
leaves the server (ledger and registry) and the world (storage, messages
written to connections) exactly as they were. -/
theorem HandleMessage_malformed_noop (s : Server) (w : World) (msg : Msg)
    (h : (∀ f, mapGet msg "filename" = some (JVal.str f) → f = "") ∨
         (∀ o, mapGet msg "operation" = some (JVal.str o) →
            o ≠ "upload" ∧ o ≠ "delete" ∧ o ≠ "request")) :
    HandleMessage s w msg = (s, w) := by
  unfold HandleMessage
  cases hf : asString (mapGet msg "filename") with
  | none => rfl
  | some filename =>
    by_cases hfe : filename = ""
    · simp [hfe]
    · cases ho : asString (mapGet msg "operation") with
      | none => simp [hfe]
      | some operation =>
        rcases h with h | h
        · exact absurd (h filename ((asString_eq_some _ _).1 hf)) hfe
        · obtain ⟨h1, h2, h3⟩ := h operation ((asString_eq_some _ _).1 ho)
          simp [hfe, h1, h2, h3]

/-- C3 at the message `{operation: "upload"}`, which has no filename. -/
theorem HandleMessage_malformed_noop_witness :
    HandleMessage ⟨[(1, true)], [("a", 5)]⟩ ⟨[("server_storage/a", ⟨"x", 5⟩)], [], 9, [], []⟩
        [("operation", JVal.str "upload")]
      = (⟨[(1, true)], [("a", 5)]⟩, ⟨[("server_storage/a", ⟨"x", 5⟩)], [], 9, [], []⟩) :=
  HandleMessage_malformed_noop ⟨[(1, true)], [("a", 5)]⟩
    ⟨[("server_storage/a", ⟨"x", 5⟩)], [], 9, [], []⟩ [("operation", JVal.str "upload")]
    (Or.inl (fun f hf => by simp [mapGet] at hf))

/-! ## Server: broadcast -/

theorem Broadcast_loop_world (message : Msg) (ks : List ConnId) (s : Server) (w : World) :
    (Broadcast_loop message ks s w).2 = { w with wire := w.wire ++ fanOut w message ks } := by
  induction ks generalizing s w with
  | nil => simp [Broadcast_loop, fanOut]
  | cons c rest ih =>
    unfold Broadcast_loop
    by_cases hc : c ∈ w.dead
    · simp [WriteJSON, hc, ih, fanOut]
    · simp [WriteJSON, hc, ih, fanOut]

theorem Broadcast_loop_fileState (message : Msg) (ks : List ConnId) (s : Server) (w : World) :
    (Broadcast_loop message ks s w).1.fileState = s.fileState := by
  induction ks generalizing s w with
  | nil => rfl
  | cons c rest ih =>
    unfold Broadcast_loop
    by_cases hc : c ∈ w.dead
    · simp [WriteJSON, hc, ih]
    · simp [WriteJSON, hc, ih]

theorem Broadcast_loop_clients (message : Msg) (ks : List ConnId) (s : Server) (w : World)
    (c : ConnId) :
    mapGet (Broadcast_loop message ks s w).1.clients c
      = if c ∈ ks ∧ c ∈ w.dead then none else mapGet s.clients c := by
  induction ks generalizing s w with
  | nil => simp [Broadcast_loop]
  | cons k rest ih =>
    unfold Broadcast_loop
    by_cases hk : k ∈ w.dead
    · simp only [WriteJSON, hk, not_true_eq_false, decide_False, Bool.false_eq_true, if_false]
      rw [ih]
      by_cases hck : c = k
      · subst hck
        simp [hk, mapGet_mapDelete_self]
      · simp [hck, mapGet_mapDelete_of_ne _ _ _ hck]
    · simp only [WriteJSON, hk, not_false_eq_true, decide_True, if_true]
      rw [ih]
      by_cases hck : c = k
      · subst hck
        simp [hk]
      · simp [hck]

/-- C9: `Broadcast` over a registry (a set: its keys are distinct) writes the
message to every registered connection exactly once and to no other; a
connection whose write succeeds keeps its registry entry, one whose write
fails loses it, so the registry afterwards holds exactly the connections
whose write succeeded; the ledger is untouched; and visiting the registry in
another order gives the same registry and the same writes up to order. -/
theorem Broadcast_isolation (s : Server) (w : World) (message : Msg)
    (hset : (mapKeys s.clients).Nodup) :
    (∃ evs : List WriteEvent,
        (Broadcast s w message).2 = { w with wire := w.wire ++ evs } ∧
        (∀ e ∈ evs, e.message = message ∧ (e.ok = true ↔ e.conn ∉ w.dead)) ∧
        (∀ c, (evs.map WriteEvent.conn).count c = if c ∈ mapKeys s.clients then 1 else 0) ∧
        (∀ s' : Server, s'.clients.Perm s.clients →
          ∃ evs' : List WriteEvent,
            (Broadcast s' w message).2 = { w with wire := w.wire ++ evs' } ∧ evs'.Perm evs)) ∧
    (∀ c, mapGet (Broadcast s w message).1.clients c
        = if c ∈ w.dead then none else mapGet s.clients c) ∧
    (Broadcast s w message).1.fileState = s.fileState ∧
    (∀ s' : Server, s'.clients.Perm s.clients →
      ∀ c, mapGet (Broadcast s' w message).1.clients c
        = mapGet (Broadcast s w message).1.clients c) := by
  have hreg : ∀ (t : Server) (c : ConnId), mapGet (Broadcast t w message).1.clients c
      = if c ∈ w.dead then none else mapGet t.clients c := by
    intro t c
    unfold Broadcast
    rw [Broadcast_loop_clients]
    by_cases hd : c ∈ w.dead
    · by_cases hk : c ∈ mapKeys t.clients
      · simp [hd, hk]
      · have hnone : mapGet t.clients c = none := by
          cases hg : mapGet t.clients c with
          | none => rfl
          | some v =>
            exfalso
            apply hk
            have hmem : ∀ (m : List (ConnId × Bool)), mapGet m c = some v → c ∈ mapKeys m := by
              intro m
              induction m with
              | nil => intro h; simp [mapGet] at h
              | cons e rest ih =>
                obtain ⟨a, b⟩ := e
                rw [mapGet_cons]
                by_cases hac : a = c
                · intro _; simp [mapKeys, hac]
                · intro h
                  rw [if_neg hac] at h
                  have := ih h
                  simp only [mapKeys, List.map_cons, List.mem_cons]
                  exact Or.inr this
            exact hmem _ hg
        simp [hd, hk, hnone]
    · simp [hd]
  refine ⟨⟨fanOut w message (mapKeys s.clients), ?_, ?_, ?_, ?_⟩, hreg s, ?_, ?_⟩
  · exact Broadcast_loop_world _ _ _ _
  · intro e he
    obtain ⟨c, _, rfl⟩ := List.mem_map.1 he
    simp
  · intro c
    have hmap : (fanOut w message (mapKeys s.clients)).map WriteEvent.conn = mapKeys s.clients := by
      simp [fanOut, Function.comp_def]
    rw [hmap]
    exact List.count_eq_of_nodup hset
  · intro s' hp
    refine ⟨fanOut w message (mapKeys s'.clients), Broadcast_loop_world _ _ _ _, ?_⟩
    exact List.Perm.map _ (List.Perm.map Prod.fst hp)
  · exact Broadcast_loop_fileState _ _ _ _
  · intro s' hp c
    rw [hreg s' c, hreg s c, mapGet_perm s.clients s'.clients hset hp c]

/-- C9 on a registry of three connections of which the second is dead: the
second loses its entry. -/
theorem Broadcast_isolation_witness :
    (mapKeys ([(1, true), (2, true), (3, true)] : List (ConnId × Bool))).Nodup ∧
    mapGet (Broadcast ⟨[(1, true), (2, true), (3, true)], []⟩ ⟨[], [], 0, [2], []⟩
        [("operation", JVal.str "update")]).1.clients 2
      = if 2 ∈ [2] then none else mapGet [(1, true), (2, true), (3, true)] 2 :=
  ⟨by decide, (Broadcast_isolation ⟨[(1, true), (2, true), (3, true)], []⟩ ⟨[], [], 0, [2], []⟩
    [("operation", JVal.str "update")] (by decide)).2.1 2⟩

/-! ## Server: upload, delete, request -/

/-- C7: an `upload` of string content `B` under a non-empty filename `F`:
when the storage write succeeds, storage holds `B` at `server_storage/F` and
the ledger maps `F` to the current instant; when it fails the ledger (and
the whole server) is as before; either way every other ledger entry is as
before. -/
theorem HandleMessage_upload (s : Server) (w : World) (msg : Msg) (F B : String)
    (hF : F ≠ "")
    (hf : mapGet msg "filename" = some (JVal.str F))
    (ho : mapGet msg "operation" = some (JVal.str "upload"))
    (hc : mapGet msg "content" = some (JVal.str B)) :
    (∀ w1, os_WriteFile w ("server_storage/" ++ F) B = some w1 →
        (HandleMessage s w msg).2 = w1 ∧
        os_ReadFile (HandleMessage s w msg).2 ("server_storage/" ++ F) = some B ∧
        mapGet (HandleMessage s w msg).1.fileState F = some w.now) ∧
    (os_WriteFile w ("server_storage/" ++ F) B = none →
        (HandleMessage s w msg).1 = s) ∧
    (∀ G, G ≠ F → mapGet (HandleMessage s w msg).1.fileState G = mapGet s.fileState G) := by
  have hrun : HandleMessage s w msg =
      match os_WriteFile w ("server_storage/" ++ F) B with
      | none => (s, w)
      | some w1 => ({ s with fileState := mapSet s.fileState F w1.now }, w1) := by
    unfold HandleMessage
    simp [asString_str _ _ hf, asString_str _ _ ho, asString_str _ _ hc, hF]
  refine ⟨?_, ?_, ?_⟩
  · intro w1 hw
    rw [hrun, hw]
    have hd : "server_storage/" ++ F ∉ w.denied := by
      intro hd
      simp [os_WriteFile, hd] at hw
    have hw1 : w1 = { w with files := mapSet w.files ("server_storage/" ++ F) ⟨B, w.now⟩ } := by
      simp [os_WriteFile, hd] at hw
      exact hw.symm
    subst hw1
    refine ⟨rfl, ?_, ?_⟩
    · simp [os_ReadFile, hd, mapGet_mapSet_self]
    · simp [mapGet_mapSet_self]
  · intro hw
    rw [hrun, hw]
  · intro G hG
    rw [hrun]
    cases os_WriteFile w ("server_storage/" ++ F) B with
    | none => rfl
    | some w1 => simp [mapGet_mapSet_of_ne _ _ _ _ hG]

/-- C7 at the upload of `notes.txt` with body `hi` over an older entry. -/
theorem HandleMessage_upload_witness :
    mapGet (HandleMessage ⟨[(1, true)], [("notes.txt", 3), ("b", 4)]⟩
        ⟨[("server_storage/notes.txt", ⟨"old", 3⟩)], [], 9, [], []⟩
        [("operation", JVal.str "upload"), ("filename", JVal.str "notes.txt"),
          ("content", JVal.str "hi")]).1.fileState "b"
      = mapGet [("notes.txt", (3 : Int)), ("b", 4)] "b" :=
  (HandleMessage_upload ⟨[(1, true)], [("notes.txt", 3), ("b", 4)]⟩
    ⟨[("server_storage/notes.txt", ⟨"old", 3⟩)], [], 9, [], []⟩
    [("operation", JVal.str "upload"), ("filename", JVal.str "notes.txt"),
      ("content", JVal.str "hi")] "notes.txt" "hi" (by decide) rfl rfl rfl).2.2 "b" (by decide)

/-- C8: a `delete` of a non-empty filename `F` whose storage removal succeeds
leaves `F` absent from the ledger and from storage, and a `request` for `F`
handled next changes nothing at all: no message is written to any
connection, ledger and registry stay as they are. When the removal fails the
server, and so every ledger entry, is as before. -/
theorem HandleMessage_delete_then_request (s : Server) (w : World) (msgD msgR : Msg)
    (F : String) (hF : F ≠ "")
    (hfD : mapGet msgD "filename" = some (JVal.str F))
    (hoD : mapGet msgD "operation" = some (JVal.str "delete"))
    (hfR : mapGet msgR "filename" = some (JVal.str F))
    (hoR : mapGet msgR "operation" = some (JVal.str "request")) :
    (∀ w1, os_Remove w ("server_storage/" ++ F) = some w1 →
        (HandleMessage s w msgD).2 = w1 ∧
        mapGet (HandleMessage s w msgD).1.fileState F = none ∧
        mapGet (HandleMessage s w msgD).2.files ("server_storage/" ++ F) = none ∧
        os_ReadFile (HandleMessage s w msgD).2 ("server_storage/" ++ F) = none ∧
        HandleMessage (HandleMessage s w msgD).1 (HandleMessage s w msgD).2 msgR
          = HandleMessage s w msgD) ∧
    (os_Remove w ("server_storage/" ++ F) = none → HandleMessage s w msgD = (s, w)) := by
  have hne : ¬ ("delete" = "upload") := by decide
  have hne2 : ¬ ("request" = "upload") := by decide
  have hne3 : ¬ ("request" = "delete") := by decide
  have hrun : HandleMessage s w msgD =
      match os_Remove w ("server_storage/" ++ F) with
      | none => (s, w)
      | some w1 => ({ s with fileState := mapDelete s.fileState F }, w1) := by
    unfold HandleMessage
    simp [asString_str _ _ hfD, asString_str _ _ hoD, hF, hne]
  have hreq : ∀ (t : Server) (v : World), os_ReadFile v ("server_storage/" ++ F) = none →
      HandleMessage t v msgR = (t, v) := by
    intro t v hv
    unfold HandleMessage
    simp [asString_str _ _ hfR, asString_str _ _ hoR, hF, hne2, hne3, hv]
  refine ⟨?_, ?_⟩
  · intro w1 hw
    have hd : "server_storage/" ++ F ∉ w.denied := by
      intro hd
      simp [os_Remove, hd] at hw
    have hw1 : w1 = { w with files := mapDelete w.files ("server_storage/" ++ F) } := by
      simp only [os_Remove, hd, if_false] at hw
      cases hg : mapGet w.files ("server_storage/" ++ F) with
      | none => simp [hg] at hw
      | some fi =>
        simp [hg] at hw
        exact hw.symm
    subst hw1
    have hread : os_ReadFile { w with files := mapDelete w.files ("server_storage/" ++ F) }
        ("server_storage/" ++ F) = none := by
      simp [os_ReadFile, mapGet_mapDelete_self]
    rw [hrun, hw]
    refine ⟨rfl, ?_, ?_, hread, ?_⟩
    · simp [mapGet_mapDelete_self]
    · simp [mapGet_mapDelete_self]
    · exact hreq _ _ hread
  · intro hw
    rw [hrun, hw]

/-- C8 at the deletion of a stored `report.pdf` that has a ledger entry. -/
theorem HandleMessage_delete_then_request_witness :
    mapGet (HandleMessage ⟨[(1, true)], [("report.pdf", 3)]⟩
        ⟨[("server_storage/report.pdf", ⟨"x", 3⟩)], [], 9, [], []⟩
        [("operation", JVal.str "delete"), ("filename", JVal.str "report.pdf")]).1.fileState
      "report.pdf" = none :=
  ((HandleMessage_delete_then_request ⟨[(1, true)], [("report.pdf", 3)]⟩
    ⟨[("server_storage/report.pdf", ⟨"x", 3⟩)], [], 9, [], []⟩
    [("operation", JVal.str "delete"), ("filename", JVal.str "report.pdf")]
    [("operation", JVal.str "request"), ("filename", JVal.str "report.pdf")]
    "report.pdf" (by decide) rfl rfl rfl rfl).1
    ⟨[], [], 9, [], []⟩ rfl).2.1

/-- C10: a `request` for a non-empty filename `F` whose file reads as `B`
writes the message `{operation: content, filename: F, content: B}` once to
every connection of the registry, in registry order, and leaves the ledger
and the storage as they were. -/
theorem HandleMessage_request_fans_out (s : Server) (w : World) (msg : Msg) (F B : String)
    (hF : F ≠ "")
    (hf : mapGet msg "filename" = some (JVal.str F))
    (ho : mapGet msg "operation" = some (JVal.str "request"))
    (hB : os_ReadFile w ("server_storage/" ++ F) = some B) :
    (HandleMessage s w msg).2.wire = w.wire ++ (mapKeys s.clients).map (fun c =>
        (⟨c, [("operation", JVal.str "content"), ("filename", JVal.str F),
          ("content", JVal.str B)], decide (c ∉ w.dead)⟩ : WriteEvent)) ∧
    (HandleMessage s w msg).1.fileState = s.fileState ∧
    (HandleMessage s w msg).2.files = w.files := by
  have hne2 : ¬ ("request" = "upload") := by decide
  have hne3 : ¬ ("request" = "delete") := by decide
  have hrun : HandleMessage s w msg = Broadcast s w
      [("operation", JVal.str "content"), ("filename", JVal.str F), ("content", JVal.str B)] := by
    unfold HandleMessage
    simp [asString_str _ _ hf, asString_str _ _ ho, hF, hne2, hne3, hB]
  rw [hrun]
  unfold Broadcast
  rw [Broadcast_loop_world, Broadcast_loop_fileState]
  exact ⟨rfl, rfl, rfl⟩

/-- C10 on a registry of two connections of which the second is dead. -/
theorem HandleMessage_request_fans_out_witness :
    (HandleMessage ⟨[(1, true), (2, true)], [("a", 3)]⟩
        ⟨[("server_storage/a", ⟨"hi", 3⟩)], [], 9, [2], []⟩
        [("operation", JVal.str "request"), ("filename", JVal.str "a")]).2.wire
      = [] ++ (mapKeys [(1, true), (2, true)]).map (fun c =>
        (⟨c, [("operation", JVal.str "content"), ("filename", JVal.str "a"),
          ("content", JVal.str "hi")], decide (c ∉ [2])⟩ : WriteEvent)) :=
  (HandleMessage_request_fans_out ⟨[(1, true), (2, true)], [("a", 3)]⟩
    ⟨[("server_storage/a", ⟨"hi", 3⟩)], [], 9, [2], []⟩
    [("operation", JVal.str "request"), ("filename", JVal.str "a")] "a" "hi"
    (by decide) rfl rfl (by decide)).1

/-! ## Client: staleness -/

/-- C2 refuted at the timestamp 5.9 (the float64 `3321404725185741 *
2 ^ (-49)`) and a local file modified at instant 5: the local time is
strictly earlier than the timestamp, yet the handler returns without writing
a request, because `int64(5.9)` is 5. -/
theorem HandleServerMessage_update_fraction_dropped :
    isFloat64 ⟨3321404725185741, -49⟩ ∧
    os_Stat ⟨[("local_storage/a", ⟨"x", 5⟩)], [], 9, [], []⟩ "local_storage/a" = some 5 ∧
    earlierThan 5 ⟨3321404725185741, -49⟩ ∧
    float64_toInt64 ⟨3321404725185741, -49⟩ = 5 ∧
    HandleServerMessage ⟨0, []⟩ ⟨[("local_storage/a", ⟨"x", 5⟩)], [], 9, [], []⟩
        [("filename", JVal.str "a"), ("operation", JVal.str "update"),
          ("timestamp", JVal.num ⟨3321404725185741, -49⟩)]
      = Run.returned (⟨0, []⟩, ⟨[("local_storage/a", ⟨"x", 5⟩)], [], 9, [], []⟩) :=
  ⟨by norm_num [isFloat64], by decide, by norm_num [earlierThan, Int.toNat], by decide, rfl⟩

/-- C2 as amended: on an `update` message for `F` whose `timestamp` is the
float64 `f`, the handler returns, and it writes exactly one `request` message
for `F` when the stat of `local_storage/F` fails or the file's modification
time is strictly before `int64(f)`; when the modification time equals
`int64(f)` or is later it writes nothing and changes nothing. When `f` is
integer-valued and within the int64 range, being before `int64(f)` is being
strictly earlier than the timestamp itself. -/
theorem HandleServerMessage_update (c : Client) (w : World) (msg : Msg) (F : String)
    (f : Float64)
    (hf : mapGet msg "filename" = some (JVal.str F))
    (ho : mapGet msg "operation" = some (JVal.str "update"))
    (ht : mapGet msg "timestamp" = some (JVal.num f)) :
    (os_Stat w ("local_storage/" ++ F) = none →
      HandleServerMessage c w msg = Run.returned (c, { w with wire := w.wire ++
        [⟨c.Conn, [("operation", JVal.str "request"), ("filename", JVal.str F)],
          decide (c.Conn ∉ w.dead)⟩] })) ∧
    (∀ Tl, os_Stat w ("local_storage/" ++ F) = some Tl → Tl < float64_toInt64 f →
      HandleServerMessage c w msg = Run.returned (c, { w with wire := w.wire ++
        [⟨c.Conn, [("operation", JVal.str "request"), ("filename", JVal.str F)],
          decide (c.Conn ∉ w.dead)⟩] })) ∧
    (∀ Tl, os_Stat w ("local_storage/" ++ F) = some Tl → float64_toInt64 f ≤ Tl →
      HandleServerMessage c w msg = Run.returned (c, w)) ∧
    (0 ≤ f.exp → -(2 ^ 63) ≤ f.mant * 2 ^ f.exp.toNat → f.mant * 2 ^ f.exp.toNat < 2 ^ 63 →
      ∀ Tl, Tl < float64_toInt64 f ↔ earlierThan Tl f) := by
  have hp : syncDir ++ "/" ++ F = "local_storage/" ++ F := by
    simp [syncDir, String.append_assoc]
  have hrun : HandleServerMessage c w msg =
      match os_Stat w ("local_storage/" ++ F) with
      | none => Run.returned (c, (WriteJSON w c.Conn
          [("operation", JVal.str "request"), ("filename", JVal.str F)]).2)
      | some localTime =>
        if localTime < float64_toInt64 f then Run.returned (c, (WriteJSON w c.Conn
          [("operation", JVal.str "request"), ("filename", JVal.str F)]).2)
        else Run.returned (c, w) := by
    unfold HandleServerMessage
    simp [asString_str _ _ hf, asString_str _ _ ho, ht, asFloat64, hp]
  refine ⟨?_, ?_, ?_, ?_⟩
  · intro hs
    rw [hrun, hs]
    rfl
  · intro Tl hs hlt
    rw [hrun, hs]
    simp [hlt, WriteJSON]
  · intro Tl hs hle
    rw [hrun, hs]
    simp [not_lt.2 hle]
  · intro h0 hlo hhi Tl
    have htr : f.trunc = f.mant * 2 ^ f.exp.toNat := by
      simp [Float64.trunc, h0]
    have hconv : float64_toInt64 f = f.mant * 2 ^ f.exp.toNat := by
      unfold float64_toInt64
      rw [htr, if_pos ⟨hlo, hhi⟩]
    rw [hconv]
    simp [earlierThan, h0]

/-- C2 as amended, at the float64 1700000000123457024 (`3320312500241127 *
2 ^ 9`) against a local file modified at 1700000000123456999: a request is
written. -/
theorem HandleServerMessage_update_witness :
    isFloat64 ⟨3320312500241127, 9⟩ ∧
    HandleServerMessage ⟨0, []⟩
        ⟨[("local_storage/a", ⟨"x", 1700000000123456999⟩)], [], 9, [], []⟩
        [("filename", JVal.str "a"), ("operation", JVal.str "update"),
          ("timestamp", JVal.num ⟨3320312500241127, 9⟩)]
      = Run.returned (⟨0, []⟩,
          ⟨[("local_storage/a", ⟨"x", 1700000000123456999⟩)], [], 9, [],
            [] ++ [⟨0, [("operation", JVal.str "request"), ("filename", JVal.str "a")],
              decide ((0 : ConnId) ∉ ([] : List ConnId))⟩]⟩) :=
  ⟨by norm_num [isFloat64], (HandleServerMessage_update ⟨0, []⟩
    ⟨[("local_storage/a", ⟨"x", 1700000000123456999⟩)], [], 9, [], []⟩
    [("filename", JVal.str "a"), ("operation", JVal.str "update"),
      ("timestamp", JVal.num ⟨3320312500241127, 9⟩)]
    "a" ⟨3320312500241127, 9⟩ rfl rfl rfl).2.1 1700000000123456999 (by decide) (by decide)⟩

/-! ## Client: echo suppression -/

/-- C1: after a `content` message for `F` is handled the marker of `F` is
set; the next `HandleLocalChange` on a path whose base name is `F` writes
nothing to the connection, touches nothing in the world and removes the
marker, leaving the markers of all other filenames as they were; the
`HandleLocalChange` for `F` after that, the file being readable with body
`body`, writes exactly one `upload` message for `F` carrying `body` and
leaves every marker as it was. The worlds `wA` and `wB` in which the two
local changes are observed are arbitrary. -/
theorem echo_suppressed_once (c : Client) (w wA wB : World) (msg : Msg)
    (F B body pA pB : String)
    (hf : mapGet msg "filename" = some (JVal.str F))
    (ho : mapGet msg "operation" = some (JVal.str "content"))
    (hc : mapGet msg "content" = some (JVal.str B))
    (hpA : filepath_Base pA = F) (hpB : filepath_Base pB = F)
    (hr : os_ReadFile wB pB = some body) :
    ∃ c1 w1, HandleServerMessage c w msg = Run.returned (c1, w1) ∧
      c1.Conn = c.Conn ∧
      mapGet c1.IgnoreFiles F = some true ∧
      (HandleLocalChange c1 wA pA).2 = wA ∧
      mapGet (HandleLocalChange c1 wA pA).1.IgnoreFiles F = none ∧
      (∀ G, G ≠ F → mapGet (HandleLocalChange c1 wA pA).1.IgnoreFiles G
          = mapGet c1.IgnoreFiles G) ∧
      (HandleLocalChange (HandleLocalChange c1 wA pA).1 wB pB).2
        = { wB with wire := wB.wire ++
            [⟨c.Conn, [("operation", JVal.str "upload"), ("filename", JVal.str F),
              ("content", JVal.str body)], decide (c.Conn ∉ wB.dead)⟩] } ∧
      (HandleLocalChange (HandleLocalChange c1 wA pA).1 wB pB).1
        = (HandleLocalChange c1 wA pA).1 := by
  have hne : ¬ ("content" = "update") := by decide
  have hrun : HandleServerMessage c w msg =
      match os_WriteFile w (syncDir ++ "/" ++ F) B with
      | none => Run.returned ({ c with IgnoreFiles := mapSet c.IgnoreFiles F true }, w)
      | some w1 => Run.returned ({ c with IgnoreFiles := mapSet c.IgnoreFiles F true }, w1) := by
    unfold HandleServerMessage
    simp [asString_str _ _ hf, asString_str _ _ ho, asString_str _ _ hc, hne]
  have hA : HandleLocalChange { c with IgnoreFiles := mapSet c.IgnoreFiles F true } wA pA
      = ({ c with IgnoreFiles := mapDelete (mapSet c.IgnoreFiles F true) F }, wA) := by
    unfold HandleLocalChange
    simp [hpA, mapGet_mapSet_self]
  have hB : HandleLocalChange { c with IgnoreFiles := mapDelete (mapSet c.IgnoreFiles F true) F }
      wB pB
      = ({ c with IgnoreFiles := mapDelete (mapSet c.IgnoreFiles F true) F },
          { wB with wire := wB.wire ++
            [⟨c.Conn, [("operation", JVal.str "upload"), ("filename", JVal.str F),
              ("content", JVal.str body)], decide (c.Conn ∉ wB.dead)⟩] }) := by
    unfold HandleLocalChange
    simp [hpB, mapGet_mapDelete_self, hr, WriteJSON]
  have hall : ∀ w1 : World,
      ({ c with IgnoreFiles := mapSet c.IgnoreFiles F true } : Client).Conn = c.Conn ∧
      mapGet ({ c with IgnoreFiles := mapSet c.IgnoreFiles F true } : Client).IgnoreFiles F
        = some true ∧
      (HandleLocalChange { c with IgnoreFiles := mapSet c.IgnoreFiles F true } wA pA).2 = wA ∧
      mapGet (HandleLocalChange { c with IgnoreFiles := mapSet c.IgnoreFiles F true }
        wA pA).1.IgnoreFiles F = none ∧
      (∀ G, G ≠ F → mapGet (HandleLocalChange { c with IgnoreFiles := mapSet c.IgnoreFiles F true }
          wA pA).1.IgnoreFiles G
          = mapGet ({ c with IgnoreFiles := mapSet c.IgnoreFiles F true } : Client).IgnoreFiles G) ∧
      (HandleLocalChange (HandleLocalChange { c with IgnoreFiles := mapSet c.IgnoreFiles F true }
          wA pA).1 wB pB).2
        = { wB with wire := wB.wire ++
            [⟨c.Conn, [("operation", JVal.str "upload"), ("filename", JVal.str F),
              ("content", JVal.str body)], decide (c.Conn ∉ wB.dead)⟩] } ∧
      (HandleLocalChange (HandleLocalChange { c with IgnoreFiles := mapSet c.IgnoreFiles F true }
          wA pA).1 wB pB).1
        = (HandleLocalChange { c with IgnoreFiles := mapSet c.IgnoreFiles F true } wA pA).1 := by
    intro _
    rw [hA]
    refine ⟨rfl, mapGet_mapSet_self _ _ _, rfl, mapGet_mapDelete_self _ _, ?_, ?_, ?_⟩
    · intro G hG
      exact mapGet_mapDelete_of_ne _ _ _ hG
    · show (HandleLocalChange _ wB pB).2 = _
      rw [hB]
    · show (HandleLocalChange _ wB pB).1 = _
      rw [hB]
  cases hw : os_WriteFile w (syncDir ++ "/" ++ F) B with
  | none =>
    rw [hw] at hrun
    exact ⟨_, w, hrun, hall w⟩
  | some w1 =>
    rw [hw] at hrun
    exact ⟨_, w1, hrun, hall w1⟩

/-- C1 at the file `a.txt`: once the content message has set the marker, the
first local change observed afterwards consumes it. -/
theorem echo_suppressed_once_witness :
    filepath_Base "local_storage/a.txt" = "a.txt" ∧
    mapGet (HandleLocalChange ⟨0, mapSet [] "a.txt" true⟩
        ⟨[("local_storage/a.txt", ⟨"hi", 9⟩)], [], 9, [], []⟩
        "local_storage/a.txt").1.IgnoreFiles "a.txt" = none := by
  refine ⟨by decide, ?_⟩
  obtain ⟨c1, w1, h1, _, _, _, h5, _⟩ := echo_suppressed_once ⟨0, []⟩ ⟨[], [], 9, [], []⟩
    ⟨[("local_storage/a.txt", ⟨"hi", 9⟩)], [], 9, [], []⟩
    ⟨[("local_storage/a.txt", ⟨"edited", 12⟩)], [], 12, [], []⟩
    [("operation", JVal.str "content"), ("filename", JVal.str "a.txt"),
      ("content", JVal.str "hi")]
    "a.txt" "hi" "edited" "local_storage/a.txt" "local_storage/a.txt" rfl rfl rfl
    (by decide) (by decide) (by decide)
  have hc1 : c1 = ⟨0, mapSet [] "a.txt" true⟩ := by
    have h2 : HandleServerMessage ⟨0, []⟩ ⟨[], [], 9, [], []⟩
        [("operation", JVal.str "content"), ("filename", JVal.str "a.txt"),
          ("content", JVal.str "hi")]
        = Run.returned (⟨0, mapSet [] "a.txt" true⟩,
            ⟨[("local_storage/a.txt", ⟨"hi", 9⟩)], [], 9, [], []⟩) := rfl
    rw [h2] at h1
    injection h1 with h1
    exact (congrArg Prod.fst h1).symm
  rw [← hc1]
  exact h5

/-! ## Client: messages that lack a field -/

/-- C4: an `update` message without a `timestamp`, and one whose `timestamp`
is a string, make `HandleServerMessage` panic instead of returning. -/
theorem HandleServerMessage_update_panics :
    HandleServerMessage ⟨0, []⟩ ⟨[], [], 0, [], []⟩
        [("filename", JVal.str "a.txt"), ("operation", JVal.str "update")]
      = Run.panicked "interface conversion: not float64" ∧
    HandleServerMessage ⟨0, []⟩ ⟨[], [], 0, [], []⟩
        [("filename", JVal.str "a.txt"), ("operation", JVal.str "update"),
          ("timestamp", JVal.str "5")]
      = Run.panicked "interface conversion: not float64" :=
  ⟨rfl, rfl⟩

/-! ## Snapshot on connect -/

/-- C5: with `a.txt` (body `hi`) stored on the server, `SendInitialFiles`
writes to the new connection a message with the keys `filename` and `content`
only, without an `operation`; the client's `HandleServerMessage` returns on
that message with no marker set and no file written. -/
theorem SendInitialFiles_not_applied_by_client :
    SendInitialFiles ⟨[("server_storage/a.txt", ⟨"hi", 3⟩)], [], 9, [], []⟩ 7
      = ⟨[("server_storage/a.txt", ⟨"hi", 3⟩)], [], 9, [],
          [⟨7, [("filename", JVal.str "a.txt"), ("content", JVal.str "hi")], true⟩]⟩ ∧
    HandleServerMessage ⟨0, []⟩ ⟨[], [], 0, [], []⟩
        [("filename", JVal.str "a.txt"), ("content", JVal.str "hi")]
      = Run.returned (⟨0, []⟩, ⟨[], [], 0, [], []⟩) :=
  ⟨rfl, rfl⟩

/-! ## Server: filenames with path separators -/

/-- C6 refuted at the filename `../x`: the `upload` is carried out, a file is
written at `server_storage/../x` and the ledger gains an entry. -/
theorem HandleMessage_separator_upload_accepted :
    '/' ∈ "../x".data ∧
    (HandleMessage ⟨[], []⟩ ⟨[], [], 9, [], []⟩
        [("operation", JVal.str "upload"), ("filename", JVal.str "../x"),
          ("content", JVal.str "c")]).1.fileState = [("../x", 9)] ∧
    (HandleMessage ⟨[], []⟩ ⟨[], [], 9, [], []⟩
        [("operation", JVal.str "upload"), ("filename", JVal.str "../x"),
          ("content", JVal.str "c")]).2.files = [("server_storage/../x", ⟨"c", 9⟩)] :=
  ⟨by decide, rfl, rfl⟩

/-- C6 as amended: a filename that contains a path separator is not rejected;
the operation is carried out on the path `server_storage/` followed by the
filename as given. An `upload` of string content whose write succeeds stores
the content there and records the current instant in the ledger; a `delete`
whose removal succeeds removes the ledger entry; a `request` whose read
succeeds broadcasts the `content` message to the registry. -/
theorem HandleMessage_separator_filename (s : Server) (w : World) (msg : Msg) (F : String)
    (hsep : '/' ∈ F.data)
    (hf : mapGet msg "filename" = some (JVal.str F)) :
    (∀ B w1, mapGet msg "operation" = some (JVal.str "upload") →
        mapGet msg "content" = some (JVal.str B) →
        os_WriteFile w ("server_storage/" ++ F) B = some w1 →
        HandleMessage s w msg = ({ s with fileState := mapSet s.fileState F w.now }, w1) ∧
        os_ReadFile w1 ("server_storage/" ++ F) = some B) ∧
    (∀ w1, mapGet msg "operation" = some (JVal.str "delete") →
        os_Remove w ("server_storage/" ++ F) = some w1 →
        HandleMessage s w msg = ({ s with fileState := mapDelete s.fileState F }, w1)) ∧
    (∀ B, mapGet msg "operation" = some (JVal.str "request") →
        os_ReadFile w ("server_storage/" ++ F) = some B →
        HandleMessage s w msg = Broadcast s w [("operation", JVal.str "content"),
          ("filename", JVal.str F), ("content", JVal.str B)]) := by
  have hF : F ≠ "" := by
    intro h
    subst h
    simp at hsep
  have hne : ¬ ("delete" = "upload") := by decide
  have hne2 : ¬ ("request" = "upload") := by decide
  have hne3 : ¬ ("request" = "delete") := by decide
  refine ⟨?_, ?_, ?_⟩
  · intro B w1 ho hc hw
    have hd : "server_storage/" ++ F ∉ w.denied := by
      intro hd
      simp [os_WriteFile, hd] at hw
    have hw1 : w1 = { w with files := mapSet w.files ("server_storage/" ++ F) ⟨B, w.now⟩ } := by
      simp [os_WriteFile, hd] at hw
      exact hw.symm
    constructor
    · unfold HandleMessage
      simp [asString_str _ _ hf, asString_str _ _ ho, asString_str _ _ hc, hF, hw]
      rw [hw1]
    · rw [hw1]
      simp [os_ReadFile, hd, mapGet_mapSet_self]
  · intro w1 ho hw
    unfold HandleMessage
    simp [asString_str _ _ hf, asString_str _ _ ho, hF, hne, hw]
  · intro B ho hB
    unfold HandleMessage
    simp [asString_str _ _ hf, asString_str _ _ ho, hF, hne2, hne3, hB]

/-- C6 as amended, at the upload of `../x`. -/
theorem HandleMessage_separator_filename_witness :
    '/' ∈ "../x".data ∧
    HandleMessage ⟨[], []⟩ ⟨[], [], 9, [], []⟩
        [("operation", JVal.str "upload"), ("filename", JVal.str "../x"),
          ("content", JVal.str "c")]
      = (⟨[], mapSet [] "../x" 9⟩, ⟨[("server_storage/../x", ⟨"c", 9⟩)], [], 9, [], []⟩) :=
  ⟨by decide, ((HandleMessage_separator_filename ⟨[], []⟩ ⟨[], [], 9, [], []⟩
    [("operation", JVal.str "upload"), ("filename", JVal.str "../x"),
      ("content", JVal.str "c")] "../x" (by decide) rfl).1 "c"
    ⟨[("server_storage/../x", ⟨"c", 9⟩)], [], 9, [], []⟩ rfl rfl rfl).1⟩

end Filesync
